import Mathlib

/-
Verification of the Floresta consensus-validation core against its
natural-language specification.

The Rust sources embedded here are:
  crates/floresta-chain/src/pruned_utreexo/consensus/block_validation.rs
  crates/floresta-chain/src/pruned_utreexo/consensus/mod.rs
  crates/floresta-chain/src/pruned_utreexo/kv_chainstore.rs

Machine integers are modelled as `Nat` with explicit reductions modulo
2^32 / 2^64 / 2^256 exactly where the Rust code (in release profile)
performs wrapping arithmetic or casts.  External collaborators that the
repository calls but whose code is not part of it (the script interpreter,
the accumulator `modify`, the missing `tx_validation.rs` module, the
merkle / witness-commitment checks of the `bitcoin` crate) are passed in
as explicit function parameters, so every theorem quantifies over their
behaviour.  The compact-target arithmetic of `bitcoin::pow` and the
script parsing of `bitcoin::script`, which the claims are directly
about, are modelled bit-for-bit from those library functions.
-/

namespace Floresta

/-! ## Machine-integer helpers -/

/-- Wrapping u32 subtraction, the release-profile semantics of `a - b` on `u32`. -/
def u32sub (a b : Nat) : Nat :=
  (a % 2 ^ 32 + (2 ^ 32 - b % 2 ^ 32)) % 2 ^ 32

/-- Wrapping u64 addition, the release-profile semantics of `a + b` on `u64`. -/
def u64add (a b : Nat) : Nat :=
  (a % 2 ^ 64 + b % 2 ^ 64) % 2 ^ 64

/-- Wrapping u64 subtraction, the release-profile semantics of `a - b` on `u64`. -/
def u64sub (a b : Nat) : Nat :=
  (a % 2 ^ 64 + (2 ^ 64 - b % 2 ^ 64)) % 2 ^ 64

/-! ## Data model (`bitcoin` crate types, shallowly embedded) -/

/-- A 32-byte hash, kept as a list of byte values. -/
abbrev Hash32 := List Nat

structure OutPoint where
  txid : Hash32
  vout : Nat
deriving DecidableEq

/-- The null outpoint used by coinbase inputs: all-zero txid and vout `u32::MAX`. -/
def nullOutPoint : OutPoint :=
  { txid := List.replicate 32 0, vout := 4294967295 }

structure TxOut where
  value : Nat
  script_pubkey : List Nat
deriving DecidableEq

structure TxIn where
  previous_output : OutPoint
  script_sig : List Nat
  sequence : Nat
deriving DecidableEq

structure Transaction where
  version : Int
  lock_time : Nat
  input : List TxIn
  output : List TxOut
deriving DecidableEq

/-- Model of `bitcoin::Transaction::is_coinbase`: exactly one input whose
previous output is the null outpoint. -/
def Transaction.is_coinbase (tx : Transaction) : Bool :=
  tx.input.length == 1 &&
    match tx.input.head? with
    | some i => i.previous_output == nullOutPoint
    | none => false

structure BlockHeader where
  version : Int
  prev_blockhash : Hash32
  merkle_root : Hash32
  time : Nat
  bits : Nat
  nonce : Nat
deriving DecidableEq

structure Block where
  header : BlockHeader
  txdata : List Transaction
deriving DecidableEq

/-- Model of `bitcoin::Block::coinbase`: the first transaction, provided it is
a coinbase. -/
def Block.coinbase (b : Block) : Option Transaction :=
  match b.txdata.head? with
  | some tx => if tx.is_coinbase then some tx else none
  | none => none

/-- The spent-output context carried by utreexo proofs (spec section 3,
`UtxoData`). -/
structure UtxoData where
  txout : TxOut
  creating_block_hash : Hash32
  creating_height : Nat
  is_coinbase : Bool
deriving DecidableEq

/-- The `HashMap<OutPoint, UtxoData>` of the source, as an association list. -/
abbrev Utxos := List (OutPoint × UtxoData)

/-! ## Errors (`BlockValidationErrors`) -/

inductive BErr where
  | BadMerkleRoot
  | BadBip34
  | BadWitnessCommitment
  | BlockTooBig
  | EmptyBlock
  | FirstTxIsNotCoinbase
  | BadCoinbaseOutValue
  | BadPoW
  | BIP94TimeWarp
  | UtxoNotFound
  | PrematureCoinbaseSpend
  | BadScript
  | NegativeFee
  | AmountOverflow
  | DuplicateInput
  | BadAccumulatorProof
  | UnspendableUTXO
deriving DecidableEq

instance {ε α : Type} [DecidableEq ε] [DecidableEq α] : DecidableEq (Except ε α) := fun x y =>
  match x, y with
  | .ok a, .ok b =>
    if h : a = b then .isTrue (by rw [h]) else .isFalse (fun hc => h (Except.ok.inj hc))
  | .error a, .error b =>
    if h : a = b then .isTrue (by rw [h]) else .isFalse (fun hc => h (Except.error.inj hc))
  | .ok _, .error _ => .isFalse (fun hc => Except.noConfusion hc)
  | .error _, .ok _ => .isFalse (fun hc => Except.noConfusion hc)

/-- Helper: an `ok` result is never an `error` result. -/
theorem ok_ne_error {ε α : Type} (a : α) (e : ε) : (Except.ok a : Except ε α) ≠ .error e :=
  fun h => Except.noConfusion h

/-! ## Chain parameters and the `Consensus` struct -/

/-- The per-network constants used by the embedded functions.  Fields mirror
`floresta_chain::ChainParams` and the `bitcoin::params::Params` it wraps. -/
structure ChainParams where
  subsidy_halving_interval : Nat
  bip34_height : Nat
  pow_target_timespan : Nat
  max_attainable_target : Nat
  no_pow_retargeting : Bool
  enforce_bip94 : Bool
deriving DecidableEq

structure Consensus where
  parameters : ChainParams
deriving DecidableEq

/-- The value of a single coin in satoshis (`COIN_VALUE`). -/
def COIN_VALUE : Nat := 100000000

/-- Mainnet-flavoured parameters used for the concrete scenarios. -/
def mainnetParams : ChainParams where
  subsidy_halving_interval := 210000
  bip34_height := 227931
  pow_target_timespan := 1209600
  max_attainable_target := 0xffff * 2 ^ 208
  no_pow_retargeting := false
  enforce_bip94 := false

def mainnetConsensus : Consensus := ⟨mainnetParams⟩

/-! ## `Consensus::get_subsidy` (block_validation.rs, lines 19-29) -/

/-- Embedding of `Consensus::get_subsidy`.  The Rust code casts the `u64`
halving interval to `u32` (hence the reduction modulo `2^32`), divides the
height by it, forces the reward to zero when the shift would be 64 or more,
and otherwise shifts `50 * COIN_VALUE` right by the number of halvings. -/
def Consensus.get_subsidy (c : Consensus) (height : Nat) : Nat :=
  let halvings := height / (c.parameters.subsidy_halving_interval % 2 ^ 32)
  if halvings ≥ 64 then 0
  else (50 * COIN_VALUE) >>> halvings

/-- Claim C2: for every height, `get_subsidy` equals `50 * 10^8` shifted right
by `height / subsidy_halving_interval`, is zero whenever that quotient is at
least 64, and with interval 210000 takes the four listed boundary values.
The hypotheses exclude a zero interval (division panic in Rust) and record
that the interval fits in `u32`, which all supported networks satisfy. -/
theorem get_subsidy_schedule (c : Consensus)
    (hpos : 0 < c.parameters.subsidy_halving_interval)
    (hlt : c.parameters.subsidy_halving_interval < 2 ^ 32) :
    (∀ height : Nat,
        c.get_subsidy height =
          (50 * 10 ^ 8) >>> (height / c.parameters.subsidy_halving_interval)) ∧
    (∀ height : Nat, 64 ≤ height / c.parameters.subsidy_halving_interval →
        c.get_subsidy height = 0) ∧
    (c.parameters.subsidy_halving_interval = 210000 →
        c.get_subsidy 0 = 5000000000 ∧
        c.get_subsidy 209999 = 5000000000 ∧
        c.get_subsidy 210000 = 2500000000 ∧
        c.get_subsidy 13440000 = 0) := by
  have hmod : c.parameters.subsidy_halving_interval % 2 ^ 32 =
      c.parameters.subsidy_halving_interval := Nat.mod_eq_of_lt hlt
  have hshift : ∀ height : Nat,
      c.get_subsidy height =
        (50 * 10 ^ 8) >>> (height / c.parameters.subsidy_halving_interval) := by
    intro height
    unfold Consensus.get_subsidy
    rw [hmod]
    by_cases h64 : height / c.parameters.subsidy_halving_interval ≥ 64
    · simp only [h64, if_pos]
      have : (50 * 10 ^ 8) >>> (height / c.parameters.subsidy_halving_interval) =
          50 * 10 ^ 8 / 2 ^ (height / c.parameters.subsidy_halving_interval) :=
        Nat.shiftRight_eq_div_pow _ _
      rw [this]
      refine (Nat.div_eq_of_lt ?_).symm
      calc 50 * 10 ^ 8 < 2 ^ 64 := by norm_num
        _ ≤ 2 ^ (height / c.parameters.subsidy_halving_interval) :=
          Nat.pow_le_pow_right (by norm_num) h64
    · simp only [h64, if_neg, not_false_eq_true]
      rfl
  refine ⟨hshift, ?_, ?_⟩
  · intro height h64
    rw [hshift height, Nat.shiftRight_eq_div_pow]
    refine Nat.div_eq_of_lt ?_
    calc 50 * 10 ^ 8 < 2 ^ 64 := by norm_num
      _ ≤ 2 ^ (height / c.parameters.subsidy_halving_interval) :=
        Nat.pow_le_pow_right (by norm_num) h64
  · intro h210
    refine ⟨?_, ?_, ?_, ?_⟩ <;> · unfold Consensus.get_subsidy; rw [h210]; decide

/-- Witness for claim C2 at the mainnet parameters. -/
theorem get_subsidy_schedule_witness :
    mainnetConsensus.get_subsidy 0 = 5000000000 ∧
    mainnetConsensus.get_subsidy 210000 = 2500000000 ∧
    mainnetConsensus.get_subsidy 13440000 = 0 := by
  have h := get_subsidy_schedule mainnetConsensus (by decide) (by decide)
  have h2 := h.2.2 (by decide)
  exact ⟨h2.1, h2.2.2.1, h2.2.2.2⟩

/-! ## Script parsing (`bitcoin::script`, as called by `get_bip34_height`)

`get_bip34_height` reads the first instruction of the coinbase
`script_sig` through `instructions_minimal()` and decodes data pushes
with `read_scriptint`.  Both library functions are modelled here from
the `bitcoin` crate sources. -/

inductive Instr where
  | pushBytes (data : List Nat)
  | op (code : Nat)
deriving DecidableEq

/-- Model of the first step of `bitcoin::script::Instructions` with
`enforce_minimal = true`.  Returns `none` both when the script is empty and
when the iterator yields `Err` (non-minimal push or early end of script):
`get_bip34_height` maps both outcomes to `None`. -/
def first_instruction_minimal (s : List Nat) : Option Instr :=
  match s with
  | [] => none
  | b :: rest =>
    if b ≤ 75 then
      -- OP_PUSHBYTES_0 .. OP_PUSHBYTES_75: direct push of the next b bytes.
      if b = 1 then
        match rest with
        | [] => none
        | d :: _ =>
          -- a single byte 1..=16 or 0x81 must use OP_N / OP_1NEGATE instead
          if d = 0x81 ∨ (1 ≤ d ∧ d ≤ 16) then none
          else some (.pushBytes [d])
      else if rest.length < b then none
      else some (.pushBytes (rest.take b))
    else if b = 0x4c then
      -- OP_PUSHDATA1
      match rest with
      | [] => none
      | n :: rest2 =>
        if n < 76 then none
        else if rest2.length < n then none
        else some (.pushBytes (rest2.take n))
    else if b = 0x4d then
      -- OP_PUSHDATA2 (little-endian 2-byte length)
      match rest with
      | n0 :: n1 :: rest2 =>
        let n := n0 + 256 * n1
        if n < 0x100 then none
        else if rest2.length < n then none
        else some (.pushBytes (rest2.take n))
      | _ => none
    else if b = 0x4e then
      -- OP_PUSHDATA4 (little-endian 4-byte length)
      match rest with
      | n0 :: n1 :: n2 :: n3 :: rest2 =>
        let n := n0 + 256 * n1 + 65536 * n2 + 16777216 * n3
        if n < 0x10000 then none
        else if rest2.length < n then none
        else some (.pushBytes (rest2.take n))
      | _ => none
    else some (.op b)

/-- Model of the sign-magnitude parse inside `read_scriptint`
(little-endian value; top bit of the last byte is the sign). -/
def scriptint_parse (v : List Nat) : Int :=
  let val : Nat := v.foldr (fun b acc => b + 256 * acc) 0
  if v.getLastD 0 &&& 0x80 ≠ 0 then
    -(Int.ofNat (val &&& (2 ^ (8 * v.length - 1) - 1)))
  else Int.ofNat val

/-- Model of `bitcoin::script::read_scriptint`: at most 4 bytes, minimal
encoding enforced, empty push decodes to 0. -/
def read_scriptint (v : List Nat) : Option Int :=
  match v.getLast? with
  | none => some 0
  | some last =>
    if v.length > 4 then none
    else if last &&& 0x7f = 0 ∧ (v.length ≤ 1 ∨ v.getD (v.length - 2) 0 &&& 0x80 = 0) then none
    else some (scriptint_parse v)

/-! ## `Consensus::get_bip34_height` (block_validation.rs, lines 31-53) -/

/-- Embedding of `Consensus::get_bip34_height`.  A data push is decoded with
`read_scriptint` and then cast `as u32` (reduction modulo `2^32`, in
two-complement fashion for negative values); opcodes `0x51..=0x60`
(OP_1..OP_16) decode to `1..16`; everything else yields `none`. -/
def get_bip34_height (block : Block) : Option Nat :=
  match block.coinbase with
  | none => none
  | some cb =>
    match cb.input.head? with
    | none => none
    | some input =>
      match first_instruction_minimal input.script_sig with
      | some (.pushBytes b) =>
        match read_scriptint b with
        | some h => some ((h % (2 ^ 32 : Int)).toNat)
        | none => none
      | some (.op opcode) =>
        if 0x51 ≤ opcode ∧ opcode ≤ 0x60 then some (opcode - 0x50) else none
      | none => none

/-! ## `Consensus::verify_block_transactions` (block_validation.rs, lines 113-160)

The per-transaction validator lives in `tx_validation.rs`, which is not
part of the sources; it is passed in as the function parameter `vT`,
and the coinbase verifier as `vCb`. -/

/-- The signature of `Consensus::verify_transaction`: transaction, the
mutable UTXO map, the block height, the `verify_script` flag and the script
validation flags; on success it returns `(in_value, out_value)` together
with the updated map. -/
abbrev VerifyTx := Transaction → Utxos → Nat → Bool → Nat → Except BErr ((Nat × Nat) × Utxos)

/-- The fee-accumulation loop of `verify_block_transactions` over the
non-coinbase transactions: `fee += in_value - out_value` in wrapping `u64`
arithmetic, threading the UTXO map through each call. -/
def verify_txs_fees (vT : VerifyTx) (height : Nat) (verify_script : Bool) (flags : Nat) :
    List Transaction → Utxos → Nat → Except BErr Nat
  | [], _, fee => .ok fee
  | tx :: rest, utxos, fee =>
    match vT tx utxos height verify_script flags with
    | .error e => .error e
    | .ok r => verify_txs_fees vT height verify_script flags rest r.2 (u64add fee (u64sub r.1.1 r.1.2))

/-- The coinbase output total: `transactions[0].output.iter().map(to_sat).sum()`,
a wrapping `u64` sum. -/
def coinbase_out_sum (tx : Transaction) : Nat :=
  tx.output.foldl (fun a o => u64add a o.value) 0

/-- Embedding of `Consensus::verify_block_transactions`: the block must be
non-empty, the first transaction must be a coinbase and pass `verify_coinbase`
(parameter `vCb`), the remaining transactions are validated while the fees
accumulate, and finally the coinbase output total may not exceed
`fee + subsidy` (both computed in `u64`). -/
def verify_block_transactions (height : Nat) (vCb : Transaction → Except BErr Unit)
    (vT : VerifyTx) (utxos : Utxos) (transactions : List Transaction)
    (subsidy : Nat) (verify_script : Bool) (flags : Nat) : Except BErr Unit :=
  match transactions with
  | [] => .error .EmptyBlock
  | cb :: rest =>
    if ¬cb.is_coinbase then .error .FirstTxIsNotCoinbase
    else
      match vCb cb with
      | .error e => .error e
      | .ok _ =>
        match verify_txs_fees vT height verify_script flags rest utxos 0 with
        | .error e => .error e
        | .ok fee =>
          if coinbase_out_sum cb > u64add fee subsidy then .error .BadCoinbaseOutValue
          else .ok ()

/-! ## `Consensus::validate_block_no_acc` (block_validation.rs, lines 60-104)

`check_merkle_root`, `check_witness_commitment` and `weight` are `bitcoin`
crate methods, passed in as the parameters `cmr`, `cwc` and `wt`; the
script-validation flags follow the non-`bitcoinconsensus` build, which
passes 0. -/

def validate_block_no_acc (cmr cwc : Block → Bool) (wt : Block → Nat)
    (vCb : Transaction → Except BErr Unit) (vT : VerifyTx)
    (c : Consensus) (block : Block) (height : Nat) (inputs : Utxos)
    (verify_script : Bool) : Except BErr Unit :=
  if ¬cmr block then .error .BadMerkleRoot
  else if c.parameters.bip34_height ≤ height ∧ get_bip34_height block ≠ some height then
    .error .BadBip34
  else if ¬cwc block then .error .BadWitnessCommitment
  else if wt block > 4000000 then .error .BlockTooBig
  else
    verify_block_transactions height vCb vT inputs block.txdata
      (c.get_subsidy height) verify_script 0

/-! ## The BIP34 claim predicates -/

/-- The BIP34 acceptance condition exactly as the claim states it: the first
instruction of the coinbase `script_sig` is a minimal push whose
script-integer decoding equals the height (as integers), or an opcode
OP_1..OP_16 whose decoded value equals the height. -/
def bip34_claim_original (block : Block) (height : Nat) : Bool :=
  match block.coinbase with
  | none => false
  | some cb =>
    match cb.input.head? with
    | none => false
    | some input =>
      match first_instruction_minimal input.script_sig with
      | some (.pushBytes b) => read_scriptint b == some (height : Int)
      | some (.op o) => decide (0x51 ≤ o) && decide (o ≤ 0x60) && decide (o - 0x50 = height)
      | none => false

/-- The amended BIP34 acceptance condition: as the original, except that the
decoded script integer is compared with the height after the `as u32` cast
(reduction modulo `2^32`) that the code applies. -/
def bip34_claim_amended (block : Block) (height : Nat) : Bool :=
  match block.coinbase with
  | none => false
  | some cb =>
    match cb.input.head? with
    | none => false
    | some input =>
      match first_instruction_minimal input.script_sig with
      | some (.pushBytes b) =>
        match read_scriptint b with
        | some h => decide ((h % (2 ^ 32 : Int)).toNat = height)
        | none => false
      | some (.op o) => decide (0x51 ≤ o) && decide (o ≤ 0x60) && decide (o - 0x50 = height)
      | none => false

/-- Helper: the code accepts the BIP34 height exactly when the amended claim
predicate holds. -/
theorem get_bip34_height_eq_some_iff (block : Block) (height : Nat) :
    get_bip34_height block = some height ↔ bip34_claim_amended block height = true := by
  cases hcb : block.coinbase with
  | none => simp [get_bip34_height, bip34_claim_amended, hcb]
  | some cb =>
    cases hin : cb.input.head? with
    | none => simp [get_bip34_height, bip34_claim_amended, hcb, hin]
    | some input =>
      cases hfi : first_instruction_minimal input.script_sig with
      | none => simp [get_bip34_height, bip34_claim_amended, hcb, hin, hfi]
      | some instr =>
        cases instr with
        | pushBytes b =>
          cases hri : read_scriptint b with
          | none => simp [get_bip34_height, bip34_claim_amended, hcb, hin, hfi, hri]
          | some h => simp [get_bip34_height, bip34_claim_amended, hcb, hin, hfi, hri]
        | op o =>
          by_cases hrange : 0x51 ≤ o ∧ o ≤ 0x60
          · simp [get_bip34_height, bip34_claim_amended, hcb, hin, hfi, hrange,
              hrange.1, hrange.2]
          · simp only [get_bip34_height, bip34_claim_amended, hcb, hin, hfi,
              if_neg hrange, Bool.and_eq_true, decide_eq_true_eq]
            constructor
            · intro hc; exact absurd hc (Option.some_ne_none height).symm.elim
            · intro ⟨⟨h1, h2⟩, _⟩; exact absurd ⟨h1, h2⟩ hrange

/-- Helper: the fee loop only fails with an error produced by some call of the
per-transaction validator. -/
theorem verify_txs_fees_error (vT : VerifyTx) (height : Nat) (vs : Bool) (flags : Nat) :
    ∀ (txs : List Transaction) (utxos : Utxos) (fee : Nat) (e : BErr),
      verify_txs_fees vT height vs flags txs utxos fee = .error e →
      ∃ tx u, vT tx u height vs flags = .error e := by
  intro txs
  induction txs with
  | nil => intro utxos fee e h; exact absurd h (ok_ne_error fee e)
  | cons tx rest ih =>
    intro utxos fee e h
    unfold verify_txs_fees at h
    cases hv : vT tx utxos height vs flags with
    | error e' =>
      rw [hv] at h
      exact ⟨tx, utxos, hv.trans (congrArg Except.error (Except.error.inj h))⟩
    | ok r =>
      rw [hv] at h
      exact ih r.2 _ e h

/-- Helper: if neither the coinbase verifier nor the transaction verifier can
produce `BadBip34`, neither can `verify_block_transactions`. -/
theorem verify_block_transactions_ne_badbip34
    (height : Nat) (vCb : Transaction → Except BErr Unit) (vT : VerifyTx)
    (utxos : Utxos) (transactions : List Transaction) (subsidy : Nat)
    (vs : Bool) (flags : Nat)
    (hcb : ∀ tx, vCb tx ≠ .error .BadBip34)
    (hvt : ∀ tx u, vT tx u height vs flags ≠ .error .BadBip34) :
    verify_block_transactions height vCb vT utxos transactions subsidy vs flags
      ≠ .error .BadBip34 := by
  unfold verify_block_transactions
  cases transactions with
  | nil => intro h; exact BErr.noConfusion (Except.error.inj h)
  | cons cb rest =>
    by_cases hc : cb.is_coinbase
    · simp only [hc, not_true_eq_false, if_neg, Bool.false_eq_true, not_false_eq_true, if_pos]
      cases hv : vCb cb with
      | error e =>
        intro h
        exact hcb cb (hv.trans (congrArg Except.error (Except.error.inj h)))
      | ok u =>
        cases hf : verify_txs_fees vT height vs flags rest utxos 0 with
        | error e =>
          intro h
          obtain ⟨tx, u', htu⟩ := verify_txs_fees_error vT height vs flags rest utxos 0 e hf
          exact hvt tx u' (htu.trans (congrArg Except.error (Except.error.inj h)))
        | ok fee =>
          by_cases hgt : coinbase_out_sum cb > u64add fee subsidy
          · simp only [hgt, if_pos]
            intro h; exact BErr.noConfusion (Except.error.inj h)
          · simp only [hgt, if_neg, not_false_eq_true]
            exact ok_ne_error () _
    · simp only [hc, not_false_eq_true, if_pos, Bool.false_eq_true]
      intro h; exact BErr.noConfusion (Except.error.inj h)

/-- Claim C3 (amended): with a correct merkle root and the height at or above
BIP34 activation, `validate_block_no_acc` fails with `BadBip34` exactly when
the coinbase height encoding, decoded with the `as u32` cast applied by the
code, does not match the block height.  The collaborators are quantified,
constrained only never to produce `BadBip34` themselves (the repository
validators never do). -/
theorem validate_block_bip34_gate (cmr cwc : Block → Bool) (wt : Block → Nat)
    (vCb : Transaction → Except BErr Unit) (vT : VerifyTx)
    (c : Consensus) (block : Block) (height : Nat) (inputs : Utxos) (vs : Bool)
    (hm : cmr block = true)
    (hh : c.parameters.bip34_height ≤ height)
    (hcb : ∀ tx, vCb tx ≠ .error .BadBip34)
    (hvt : ∀ tx u ht b f, vT tx u ht b f ≠ .error .BadBip34) :
    validate_block_no_acc cmr cwc wt vCb vT c block height inputs vs = .error .BadBip34
      ↔ bip34_claim_amended block height = false := by
  unfold validate_block_no_acc
  rw [hm]
  simp only [not_true_eq_false, if_neg, not_false_eq_true]
  by_cases hb : bip34_claim_amended block height = true
  · have hg : get_bip34_height block = some height :=
      (get_bip34_height_eq_some_iff block height).mpr hb
    rw [if_neg (by intro hcond; exact hcond.2 hg)]
    constructor
    · intro h
      exfalso
      by_cases hw : cwc block
      · rw [if_neg (by simp [hw])] at h
        by_cases hwt : wt block > 4000000
        · rw [if_pos hwt] at h
          exact BErr.noConfusion (Except.error.inj h)
        · rw [if_neg hwt] at h
          exact verify_block_transactions_ne_badbip34 height vCb vT inputs block.txdata
            (c.get_subsidy height) vs 0 hcb (fun tx u => hvt tx u height vs 0) h
      · rw [if_pos (by simp [hw])] at h
        exact BErr.noConfusion (Except.error.inj h)
    · intro h; rw [hb] at h; exact Bool.noConfusion h
  · have hg : get_bip34_height block ≠ some height :=
      fun h => hb ((get_bip34_height_eq_some_iff block height).mp h)
    rw [if_pos ⟨hh, hg⟩]
    simp [Bool.eq_false_iff.mpr hb]

/-- Witness for claim C3: a mainnet-height-227931 block whose coinbase pushes
the minimal script integer 227931. -/
def bip34GoodBlock : Block :=
  ⟨⟨0, List.replicate 32 0, List.replicate 32 0, 0, 0, 0⟩,
   [⟨1, 0, [⟨nullOutPoint, [0x03, 0x5B, 0x7A, 0x03], 0xffffffff⟩], []⟩]⟩

theorem validate_block_bip34_gate_witness :
    validate_block_no_acc (fun _ => true) (fun _ => true) (fun _ => 0)
        (fun _ => .ok ()) (fun _ u _ _ _ => .ok ((0, 0), u))
        mainnetConsensus bip34GoodBlock 227931 [] false = .error .BadBip34
      ↔ bip34_claim_amended bip34GoodBlock 227931 = false :=
  validate_block_bip34_gate (fun _ => true) (fun _ => true) (fun _ => 0)
    (fun _ => .ok ()) (fun _ u _ _ _ => .ok ((0, 0), u))
    mainnetConsensus bip34GoodBlock 227931 [] false rfl (by decide)
    (fun _ => ok_ne_error () _) (fun _ u _ _ _ => ok_ne_error ((0, 0), u) _)

/-- Counterexample to claim C3 as stated: the coinbase pushes the minimal
script integer -2, whose decoding does not equal the height 4294967294, yet
the `as u32` cast makes the code accept the block. -/
def bip34CastBlock : Block :=
  ⟨⟨0, List.replicate 32 0, List.replicate 32 0, 0, 0, 0⟩,
   [⟨1, 0, [⟨nullOutPoint, [0x01, 0x82], 0xffffffff⟩], []⟩]⟩

theorem bip34_cast_counterexample :
    validate_block_no_acc (fun _ => true) (fun _ => true) (fun _ => 0)
        (fun _ => .ok ()) (fun _ u _ _ _ => .ok ((0, 0), u))
        mainnetConsensus bip34CastBlock 4294967294 [] false = .ok () ∧
    mainnetParams.bip34_height ≤ 4294967294 ∧
    bip34_claim_original bip34CastBlock 4294967294 = false := by decide

/-! ## Claims C1 and C7: the coinbase value check -/

/-- Claim C1 (amended): when the first transaction is a coinbase that passes
`verify_coinbase` and the remaining transactions all verify, accumulating the
fee in wrapping `u64` arithmetic, `verify_block_transactions` fails with
`BadCoinbaseOutValue` exactly when the wrapping `u64` sum of the coinbase
output values exceeds `fee + subsidy` (also wrapping), and accepts the block
exactly when it does not (under-claim permitted). -/
theorem coinbase_value_gate (vCb : Transaction → Except BErr Unit) (vT : VerifyTx)
    (height subsidy : Nat) (cb : Transaction) (rest : List Transaction)
    (utxos : Utxos) (vs : Bool) (flags fee : Nat)
    (hcb : cb.is_coinbase = true)
    (hvcb : vCb cb = .ok ())
    (hfees : verify_txs_fees vT height vs flags rest utxos 0 = .ok fee) :
    (verify_block_transactions height vCb vT utxos (cb :: rest) subsidy vs flags
        = .error .BadCoinbaseOutValue ↔ u64add fee subsidy < coinbase_out_sum cb) ∧
    (verify_block_transactions height vCb vT utxos (cb :: rest) subsidy vs flags
        = .ok () ↔ coinbase_out_sum cb ≤ u64add fee subsidy) := by
  simp only [verify_block_transactions, hcb, hvcb, hfees, not_true_eq_false,
    Bool.false_eq_true, if_false]
  by_cases hgt : coinbase_out_sum cb > u64add fee subsidy
  · rw [if_pos hgt]
    constructor
    · exact ⟨fun _ => hgt, fun _ => rfl⟩
    · constructor
      · intro h; exact absurd h.symm (ok_ne_error () _)
      · intro h; exact absurd hgt (Nat.not_lt.mpr h)
  · rw [if_neg hgt]
    constructor
    · constructor
      · intro h; exact absurd h (ok_ne_error () _)
      · intro h; exact absurd h hgt
    · exact ⟨fun _ => Nat.not_lt.mp hgt, fun _ => rfl⟩

/-- Witness for claim C1: the regtest scenario of the spec, with a coinbase
claiming one satoshi less than the subsidy, accepted. -/
def underClaimCoinbase : Transaction :=
  ⟨1, 0, [⟨nullOutPoint, [0, 0], 0xffffffff⟩], [⟨4999999999, []⟩]⟩

theorem coinbase_value_gate_witness :
    verify_block_transactions 0 (fun _ => .ok ()) (fun _ u _ _ _ => .ok ((0, 0), u))
        [] [underClaimCoinbase] 5000000000 false 0 = .ok ()
      ↔ coinbase_out_sum underClaimCoinbase ≤ u64add 0 5000000000 :=
  (coinbase_value_gate (fun _ => .ok ()) (fun _ u _ _ _ => .ok ((0, 0), u))
    0 5000000000 underClaimCoinbase [] [] false 0 0 (by decide) rfl rfl).2

/-- Counterexample to claim C1 as stated: a coinbase whose two outputs of
`2^63` satoshis sum (as integers) far past `subsidy + fee`, yet the wrapping
`u64` sum is 0 and the block is accepted instead of failing with
`BadCoinbaseOutValue`. -/
def wrapCoinbaseC1 : Transaction :=
  ⟨1, 0, [⟨nullOutPoint, [0, 0], 0xffffffff⟩], [⟨2 ^ 63, []⟩, ⟨2 ^ 63, []⟩]⟩

theorem coinbase_sum_wrap_counterexample :
    verify_block_transactions 0 (fun _ => .ok ()) (fun _ u _ _ _ => .ok ((0, 0), u))
        [] [wrapCoinbaseC1] (mainnetConsensus.get_subsidy 0) false 0 = .ok () ∧
    mainnetConsensus.get_subsidy 0 + 0 < (wrapCoinbaseC1.output.map TxOut.value).sum := by
  decide

/-- Claim C7 evidence: a block accepted by `verify_block_transactions` even
though the integer sum of its coinbase outputs exceeds `2^64`, so the `u64`
sum wrapped and the wrap flipped the outcome from reject to accept (the exact
sum is far above `subsidy + fee = 312500000`). -/
def wrapCoinbaseC7 : Transaction :=
  ⟨1, 0, [⟨nullOutPoint, [0, 0], 0xffffffff⟩], [⟨2 ^ 63, []⟩, ⟨2 ^ 63 + 312500000, []⟩]⟩

theorem coinbase_sum_wrap_accepted :
    verify_block_transactions 840000 (fun _ => .ok ()) (fun _ u _ _ _ => .ok ((0, 0), u))
        [] [wrapCoinbaseC7] (mainnetConsensus.get_subsidy 840000) false 0 = .ok () ∧
    2 ^ 64 ≤ (wrapCoinbaseC7.output.map TxOut.value).sum ∧
    mainnetConsensus.get_subsidy 840000 + 0 < (wrapCoinbaseC7.output.map TxOut.value).sum := by
  decide

/-! ## `Consensus::check_bip94_time` (consensus/mod.rs, lines 72-81) -/

/-- Embedding of `Consensus::check_bip94_time`.  The Rust code compares
`block.time < prev_block.time - 600` on `u32`, so the subtraction wraps when
`prev_block.time < 600`. -/
def check_bip94_time (block prev_block : BlockHeader) : Except BErr Unit :=
  if block.time % 2 ^ 32 < u32sub prev_block.time 600 then .error .BIP94TimeWarp
  else .ok ()

/-- A concrete header template with a given timestamp. -/
def headerAtTime (t : Nat) : BlockHeader :=
  ⟨0, List.replicate 32 0, List.replicate 32 0, t, 0, 0⟩

/-- Claim C5 evidence (code bug): at `parent.time = 0` and `header.time = 0`
the claim (and BIP94, quoted in the code comment) requires acceptance, since
`0 ≥ 0 - 600` over the integers, but the wrapping `u32` subtraction makes the
code reject with `BIP94TimeWarp`.  For `parent.time ≥ 600` the code matches
the claim, as the second part records at the boundary values. -/
theorem check_bip94_time_wrap_bug :
    check_bip94_time (headerAtTime 0) (headerAtTime 0) = .error .BIP94TimeWarp ∧
    ¬((0 : Int) < (0 : Int) - 600) ∧
    check_bip94_time (headerAtTime 999) (headerAtTime 1599) = .ok () ∧
    check_bip94_time (headerAtTime 998) (headerAtTime 1599) = .error .BIP94TimeWarp := by
  decide

/-! ## `Consensus::update_acc` (consensus/mod.rs, lines 109-138)

The accumulator `Stump`, the `Proof` and `Stump::modify` belong to the
`rustreexo` crate and `get_block_adds` to the missing `udata` module; they
are passed in as parameters, so the theorems hold for every behaviour of
those collaborators. -/

/-- The unspendable BIP30 leaf hash of block 91722
(`84b3af07...22fe3`). -/
def UNSPENDABLE_BIP30_UTXO_91722 : Hash32 :=
  [0x84, 0xb3, 0xaf, 0x07, 0x83, 0xb4, 0x10, 0xb4, 0x56, 0x4c, 0x5d, 0x1f, 0x36, 0x18, 0x68, 0x55,
   0x9f, 0x7c, 0xf7, 0x7c, 0xfc, 0x65, 0xce, 0x2b, 0xe9, 0x51, 0x21, 0x03, 0x57, 0x02, 0x2f, 0xe3]

/-- The unspendable BIP30 leaf hash of block 91812
(`bc6b4bf7...5ad8`). -/
def UNSPENDABLE_BIP30_UTXO_91812 : Hash32 :=
  [0xbc, 0x6b, 0x4b, 0xf7, 0xce, 0xbb, 0xd3, 0x3a, 0x18, 0xd6, 0xb0, 0xfe, 0x1f, 0x8e, 0xcc, 0x7a,
   0xa5, 0x40, 0x30, 0x83, 0xc3, 0x9e, 0xe3, 0x43, 0xb9, 0x85, 0xd5, 0x1f, 0xd0, 0x29, 0x5a, 0xd8]

/-- Embedding of `Consensus::contains_unspendable_utxo`. -/
def contains_unspendable_utxo (del_hashes : List Hash32) : Bool :=
  del_hashes.any fun h =>
    h == UNSPENDABLE_BIP30_UTXO_91722 || h == UNSPENDABLE_BIP30_UTXO_91812

/-- Embedding of `Consensus::update_acc`, parameterized over the block-hash
function, `get_block_adds` and the accumulator `modify` of `rustreexo`.
The unspendable-UTXO check runs before `modify` is ever consulted; on
success the new stump (first component of the `modify` result) is
returned. -/
def update_acc {Stump Proof : Type}
    (blockHashFn : Block → Hash32)
    (getBlockAdds : Block → Nat → Hash32 → List Hash32)
    (modify : Stump → List Hash32 → List Hash32 → Proof → Except BErr (Stump × Unit))
    (acc : Stump) (block : Block) (height : Nat) (proof : Proof)
    (del_hashes : List Hash32) : Except BErr Stump :=
  let block_hash := blockHashFn block
  if contains_unspendable_utxo del_hashes then .error .UnspendableUTXO
  else
    let adds := getBlockAdds block height block_hash
    match modify acc adds del_hashes proof with
    | .error e => .error e
    | .ok r => .ok r.1

/-- Claim C4: whenever `del_hashes` contains one of the two BIP30 unspendable
leaf hashes, `update_acc` fails with `UnspendableUTXO`, for every accumulator
state, block, height, proof, and every behaviour of the accumulator library.
The input stump is untouched: `update_acc` borrows it immutably and the
embedding is a pure function of it. -/
theorem update_acc_unspendable {Stump Proof : Type}
    (blockHashFn : Block → Hash32)
    (getBlockAdds : Block → Nat → Hash32 → List Hash32)
    (modify : Stump → List Hash32 → List Hash32 → Proof → Except BErr (Stump × Unit))
    (acc : Stump) (block : Block) (height : Nat) (proof : Proof)
    (del_hashes : List Hash32)
    (hmem : UNSPENDABLE_BIP30_UTXO_91722 ∈ del_hashes ∨
            UNSPENDABLE_BIP30_UTXO_91812 ∈ del_hashes) :
    update_acc blockHashFn getBlockAdds modify acc block height proof del_hashes
      = .error .UnspendableUTXO := by
  have hc : contains_unspendable_utxo del_hashes = true := by
    rcases hmem with hm | hm
    · exact List.any_eq_true.mpr ⟨_, hm, by simp⟩
    · exact List.any_eq_true.mpr ⟨_, hm, by simp⟩
  unfold update_acc
  rw [if_pos hc]

/-- Witness for claim C4 on a unit stump and a deletion list holding the
block-91722 leaf. -/
theorem update_acc_unspendable_witness :
    @update_acc Unit Unit (fun _ => List.replicate 32 0)
        (fun _ _ _ => []) (fun s _ _ _ => .ok (s, ()))
        () ⟨headerAtTime 0, []⟩ 0 () [UNSPENDABLE_BIP30_UTXO_91722]
      = .error .UnspendableUTXO :=
  update_acc_unspendable (fun _ => List.replicate 32 0) (fun _ _ _ => [])
    (fun s _ _ _ => .ok (s, ())) () ⟨headerAtTime 0, []⟩ 0 ()
    [UNSPENDABLE_BIP30_UTXO_91722] (Or.inl (List.mem_singleton.mpr rfl))

/-- Claim C10: the unspendable-leaf check takes precedence over proof
verification.  Even when the accumulator library would reject the proof with
`BadAccumulatorProof` on exactly the arguments `update_acc` would pass it,
the result is `UnspendableUTXO`. -/
theorem update_acc_unspendable_precedence {Stump Proof : Type}
    (blockHashFn : Block → Hash32)
    (getBlockAdds : Block → Nat → Hash32 → List Hash32)
    (modify : Stump → List Hash32 → List Hash32 → Proof → Except BErr (Stump × Unit))
    (acc : Stump) (block : Block) (height : Nat) (proof : Proof)
    (del_hashes : List Hash32)
    (hc : contains_unspendable_utxo del_hashes = true)
    (hbad : modify acc (getBlockAdds block height (blockHashFn block)) del_hashes proof
      = .error .BadAccumulatorProof) :
    update_acc blockHashFn getBlockAdds modify acc block height proof del_hashes
      = .error .UnspendableUTXO := by
  unfold update_acc
  rw [if_pos hc]

/-- Witness for claim C10: the proof-rejecting accumulator still loses to the
unspendable-leaf check. -/
theorem update_acc_unspendable_precedence_witness :
    @update_acc Unit Unit (fun _ => List.replicate 32 0)
        (fun _ _ _ => []) (fun _ _ _ _ => .error .BadAccumulatorProof)
        () ⟨headerAtTime 0, []⟩ 0 () [UNSPENDABLE_BIP30_UTXO_91812]
      = .error .UnspendableUTXO :=
  update_acc_unspendable_precedence (fun _ => List.replicate 32 0) (fun _ _ _ => [])
    (fun _ _ _ _ => .error .BadAccumulatorProof) () ⟨headerAtTime 0, []⟩ 0 ()
    [UNSPENDABLE_BIP30_UTXO_91812] (by decide) rfl

/-! ## `Consensus::calc_next_work_required` (consensus/mod.rs, lines 85-102)

The function selects the base bits and subtracts the `u32` timestamps,
then delegates to `bitcoin::CompactTarget::from_next_work_required` and
decodes the result into a `Target`.  The compact-target arithmetic is
modelled here from the `bitcoin` crate (`pow.rs`); targets are 256-bit
integers, kept as `Nat` reduced modulo `2^256`.  The model is exact for
compact encodings whose exponent byte is at most 32 (every target that
fits 256 bits without truncation), the region all theorems below stay
in. -/

/-- Bit length of a 256-bit integer (`U256::bits`), computed by bounded
search over the `U256` bit range so that it evaluates inside the kernel. -/
def nbits (n : Nat) : Nat :=
  (List.range 257).foldl (fun acc k => if 2 ^ k ≤ n then k + 1 else acc) 0

/-- Model of `bitcoin::Target::from_compact`: split the compact encoding
into mantissa and exponent, return zero for negative mantissas, otherwise
shift the mantissa into place. -/
def target_from_compact (bits : Nat) : Nat :=
  let unshifted_expt := bits >>> 24
  let mant :=
    if unshifted_expt ≤ 3 then (bits &&& 0xFFFFFF) >>> (8 * (3 - unshifted_expt))
    else bits &&& 0xFFFFFF
  let expt := if unshifted_expt ≤ 3 then 0 else 8 * (unshifted_expt - 3)
  if mant > 0x7FFFFF then 0 else (mant <<< expt) % 2 ^ 256

/-- Model of `bitcoin::Target::to_compact_lossy`: take the top three bytes as
the mantissa, bump the exponent when the sign bit would be set. -/
def to_compact_lossy (t : Nat) : Nat :=
  let size0 := (nbits t + 7) / 8
  let compact0 :=
    if size0 ≤ 3 then ((t % 2 ^ 64) <<< (8 * (3 - size0))) % 2 ^ 32
    else (t >>> (8 * (size0 - 3))) % 2 ^ 32
  if compact0 &&& 0x00800000 ≠ 0 then (compact0 >>> 8) ||| ((size0 + 1) <<< 24)
  else compact0 ||| (size0 <<< 24)

/-- Model of `bitcoin::CompactTarget::from_next_work_required`: unless the
network disables retargeting, clamp the timespan to a factor of four around
the target timespan, scale the decoded previous target, clamp to the maximum
attainable target and re-encode (lossily) as a compact target. -/
def from_next_work_required (bits timespan : Nat) (p : ChainParams) : Nat :=
  if p.no_pow_retargeting then bits
  else
    let actual_timespan :=
      max (p.pow_target_timespan >>> 2)
        (min timespan ((p.pow_target_timespan <<< 2) % 2 ^ 64))
    let retarget := (target_from_compact bits * actual_timespan) % 2 ^ 256 /
      p.pow_target_timespan
    if retarget > p.max_attainable_target then to_compact_lossy p.max_attainable_target
    else to_compact_lossy retarget

/-- Embedding of `Consensus::calc_next_work_required`: the timespan is the
wrapping `u32` difference of the boundary timestamps, the base bits come from
the first block of the period under BIP94 and from the last block otherwise,
and the compact result is decoded back into a target. -/
def calc_next_work_required (last_block first_block : BlockHeader)
    (params : ChainParams) : Nat :=
  let actual_timespan := u32sub last_block.time first_block.time
  let bits := if params.enforce_bip94 then first_block.bits else last_block.bits
  target_from_compact (from_next_work_required bits actual_timespan params)

/-- The next-work computation exactly as claim C6 states it: the timespan is
the integer difference `last.time - first.time` clamped to
`[timespan/4, timespan*4]`, the decoded base target is scaled by it and the
result clamped to the maximum target, with no compact-encoding round trip
and no retargeting exemption. -/
def next_target_claim_original (last_block first_block : BlockHeader)
    (p : ChainParams) : Nat :=
  let base_bits := if p.enforce_bip94 then first_block.bits else last_block.bits
  let ts := p.pow_target_timespan
  let actual : Int :=
    max ((ts : Int) / 4) (min ((last_block.time : Int) - (first_block.time : Int)) ((ts : Int) * 4))
  min (target_from_compact base_bits * actual.toNat / ts) p.max_attainable_target

/-- The claim as amended: the timespan is the wrapping `u32` difference, the
scaled-and-clamped target is additionally round-tripped through the lossy
compact encoding, and a network with retargeting disabled keeps the decoded
base bits unchanged. -/
def next_target_claim_amended (last_block first_block : BlockHeader)
    (p : ChainParams) : Nat :=
  let base_bits := if p.enforce_bip94 then first_block.bits else last_block.bits
  if p.no_pow_retargeting then target_from_compact base_bits
  else
    let ts := p.pow_target_timespan
    let actual := max (ts / 4) (min (u32sub last_block.time first_block.time) (ts * 4))
    target_from_compact (to_compact_lossy
      (min (target_from_compact base_bits * actual / ts) p.max_attainable_target))

/-- Claim C6 (amended): `calc_next_work_required` computes the amended
specification, for every pair of headers and all parameters whose target
timespan is positive (the division would otherwise panic), small enough not
to wrap when shifted left by two, and whose decoded base target times the
maximum clamped timespan fits 256 bits (no `U256` overflow). -/
theorem calc_next_work_required_spec (last_block first_block : BlockHeader)
    (p : ChainParams)
    (hts : 0 < p.pow_target_timespan)
    (hts4 : p.pow_target_timespan * 4 < 2 ^ 64)
    (hbits : target_from_compact
        (if p.enforce_bip94 then first_block.bits else last_block.bits) *
        (p.pow_target_timespan * 4) < 2 ^ 256) :
    calc_next_work_required last_block first_block p =
      next_target_claim_amended last_block first_block p := by
  unfold calc_next_work_required next_target_claim_amended from_next_work_required
  by_cases hn : p.no_pow_retargeting
  · simp [hn]
  · simp only [hn, Bool.false_eq_true, if_false]
    have h1 : p.pow_target_timespan >>> 2 = p.pow_target_timespan / 4 := by
      rw [Nat.shiftRight_eq_div_pow]
    have h2 : (p.pow_target_timespan <<< 2) % 2 ^ 64 = p.pow_target_timespan * 4 := by
      rw [Nat.shiftLeft_eq]
      exact Nat.mod_eq_of_lt (by exact_mod_cast hts4)
    rw [h1, h2]
    set bb := if p.enforce_bip94 then first_block.bits else last_block.bits with hbb
    set x := u32sub last_block.time first_block.time with hx
    have hle : max (p.pow_target_timespan / 4) (min x (p.pow_target_timespan * 4))
        ≤ p.pow_target_timespan * 4 := by
      have hq : p.pow_target_timespan / 4 ≤ p.pow_target_timespan * 4 :=
        le_trans (Nat.div_le_self _ _) (Nat.le_mul_of_pos_right _ (by norm_num))
      exact max_le hq (min_le_right _ _)
    have hmul : target_from_compact bb *
        max (p.pow_target_timespan / 4) (min x (p.pow_target_timespan * 4)) < 2 ^ 256 :=
      lt_of_le_of_lt (Nat.mul_le_mul_left _ hle) hbits
    rw [Nat.mod_eq_of_lt hmul]
    set r := target_from_compact bb *
      max (p.pow_target_timespan / 4) (min x (p.pow_target_timespan * 4)) /
      p.pow_target_timespan with hr
    by_cases hgt : r > p.max_attainable_target
    · rw [if_pos hgt, min_eq_right (le_of_lt hgt)]
    · rw [if_neg hgt, min_eq_left (Nat.not_lt.mp hgt)]

/-- A header with the given time and bits, for the retargeting scenarios. -/
def headerTB (t bits : Nat) : BlockHeader :=
  ⟨0, List.replicate 32 0, List.replicate 32 0, t, bits, 0⟩

/-- Witness for claim C6: a full-period mainnet retarget at bits
`0x1b0404cb`. -/
theorem calc_next_work_required_spec_witness :
    calc_next_work_required (headerTB 1209600 0x1b0404cb) (headerTB 0 0x1b0404cb)
        mainnetParams =
      next_target_claim_amended (headerTB 1209600 0x1b0404cb) (headerTB 0 0x1b0404cb)
        mainnetParams :=
  calc_next_work_required_spec (headerTB 1209600 0x1b0404cb) (headerTB 0 0x1b0404cb)
    mainnetParams (by decide) (by decide) (by decide)

/-- Regtest-flavoured parameters: no retargeting, maximal target
`0x7fffff * 2^232`. -/
def regtestParams : ChainParams where
  subsidy_halving_interval := 150
  bip34_height := 500
  pow_target_timespan := 1209600
  max_attainable_target := 0x7fffff * 2 ^ 232
  no_pow_retargeting := true
  enforce_bip94 := false

/-- Counterexample to claim C6 as stated, in three parts.  First, a last
block timestamped before the first block: the claim clamps the negative
timespan up to a quarter period, while the wrapping `u32` subtraction makes
the code clamp it to four periods, quartering instead of quadrupling the
difficulty.  Second, with retargeting disabled the code keeps the base bits
while the claim still scales them.  Third, a benign timespan of one and a
half periods, where the compact-encoding round trip drops low bits of the
scaled target. -/
theorem calc_next_work_required_counterexample :
    calc_next_work_required (headerTB 0 0x1b0404cb) (headerTB 1 0x1b0404cb) mainnetParams
      ≠ next_target_claim_original (headerTB 0 0x1b0404cb) (headerTB 1 0x1b0404cb)
        mainnetParams ∧
    calc_next_work_required (headerTB 302400 0x207fffff) (headerTB 0 0x207fffff) regtestParams
      ≠ next_target_claim_original (headerTB 302400 0x207fffff) (headerTB 0 0x207fffff)
        regtestParams ∧
    calc_next_work_required (headerTB 1814400 0x1b0404cb) (headerTB 0 0x1b0404cb) mainnetParams
      ≠ next_target_claim_original (headerTB 1814400 0x1b0404cb) (headerTB 0 0x1b0404cb)
        mainnetParams := by
  decide

/-! ## `KvChainStore` (kv_chainstore.rs)

The store keeps two LRU caches (block hash to header, height to block
hash) in front of two committed `redb` tables.  Headers and hashes are
abstracted to `Nat` (`save_header` keys the row by `header.block_hash()`,
so the operations below carry the hash alongside the header value); the
tables and caches are association lists.  A write transaction either
commits or fails, which the write operations record in a `commitOk`
flag; `deserialize` of a value that was produced by `serialize` is
assumed to round-trip. -/

/-- First-match association lookup. -/
def alookup : List (Nat × Nat) → Nat → Option Nat
  | [], _ => none
  | (k, v) :: t, key => if k = key then some v else alookup t key

/-- Committed-table insert (`redb` overwrites the row). -/
def ainsert (l : List (Nat × Nat)) (k v : Nat) : List (Nat × Nat) :=
  (k, v) :: l.filter (fun p => p.1 ≠ k)

/-- `LruCache::put`: move the key to the front, drop the least recently used
entry beyond the capacity. -/
def lru_put (cap : Nat) (l : List (Nat × Nat)) (k v : Nat) : List (Nat × Nat) :=
  ((k, v) :: l.filter (fun p => p.1 ≠ k)).take cap

/-- `LruCache::get`: a hit promotes the entry to the front. -/
def lru_get (l : List (Nat × Nat)) (k : Nat) : Option Nat × List (Nat × Nat) :=
  match alookup l k with
  | some v => (some v, (k, v) :: l.filter (fun p => p.1 ≠ k))
  | none => (none, l)

def HEADER_CACHE_CAPACITY : Nat := 64000
def INDEX_CACHE_CAPACITY : Nat := 64000

structure KvState where
  headerCache : List (Nat × Nat)
  indexCache : List (Nat × Nat)
  dbHeaders : List (Nat × Nat)
  dbIndex : List (Nat × Nat)
deriving DecidableEq

/-- The store right after `KvChainStore::new`: empty caches, empty tables. -/
def kv_init : KvState := ⟨[], [], [], []⟩

/-- One store operation.  The write operations carry whether their `redb`
write transaction commits (`save_header` returns `Ok` exactly when it does). -/
inductive KvOp where
  | saveHeader (hash hdr : Nat) (commitOk : Bool)
  | updateBlockIndex (height hash : Nat) (commitOk : Bool)
  | getHeader (hash : Nat)
  | getBlockHash (height : Nat)
deriving DecidableEq

/-- State transition of the store.  `save_header` and `update_block_index`
put the entry into the LRU cache first and only then run the write
transaction, so a failed commit leaves the cache entry behind; the read
operations populate or promote cache entries from committed rows. -/
def kv_step (s : KvState) (op : KvOp) : KvState :=
  match op with
  | .saveHeader hash hdr commitOk =>
    let hc := lru_put HEADER_CACHE_CAPACITY s.headerCache hash hdr
    if commitOk then { s with headerCache := hc, dbHeaders := ainsert s.dbHeaders hash hdr }
    else { s with headerCache := hc }
  | .updateBlockIndex height hash commitOk =>
    let ic := lru_put INDEX_CACHE_CAPACITY s.indexCache height hash
    if commitOk then { s with indexCache := ic, dbIndex := ainsert s.dbIndex height hash }
    else { s with indexCache := ic }
  | .getHeader hash =>
    match lru_get s.headerCache hash with
    | (some _, hc) => { s with headerCache := hc }
    | (none, _) =>
      match alookup s.dbHeaders hash with
      | some hdr => { s with headerCache := lru_put HEADER_CACHE_CAPACITY s.headerCache hash hdr }
      | none => s
  | .getBlockHash height =>
    match lru_get s.indexCache height with
    | (some _, ic) => { s with indexCache := ic }
    | (none, _) =>
      match alookup s.dbIndex height with
      | some hash => { s with indexCache := lru_put INDEX_CACHE_CAPACITY s.indexCache height hash }
      | none => s

def kv_run (s : KvState) : List KvOp → KvState
  | [] => s
  | op :: rest => kv_run (kv_step s op) rest

/-- The value `get_header` returns in a given state: the cache hit if any,
otherwise the committed row. -/
def get_header_out (s : KvState) (hash : Nat) : Option Nat :=
  match alookup s.headerCache hash with
  | some v => some v
  | none => alookup s.dbHeaders hash

/-- The value `get_block_hash` returns in a given state. -/
def get_block_hash_out (s : KvState) (height : Nat) : Option Nat :=
  match alookup s.indexCache height with
  | some v => some v
  | none => alookup s.dbIndex height

/-- The claimed invariant of claim C8: every cache entry is backed by an
identical committed row. -/
def cache_backed (s : KvState) : Prop :=
  (∀ p ∈ s.headerCache, alookup s.dbHeaders p.1 = some p.2) ∧
  (∀ p ∈ s.indexCache, alookup s.dbIndex p.1 = some p.2)

instance (s : KvState) : Decidable (cache_backed s) := by
  unfold cache_backed; infer_instance

/-- An operation whose write transaction (if any) commits. -/
def KvOp.write_ok : KvOp → Prop
  | .saveHeader _ _ commitOk => commitOk = true
  | .updateBlockIndex _ _ commitOk => commitOk = true
  | _ => True

/-- Helper: entries of an LRU `put` are the new pair or old entries with a
different key. -/
theorem mem_lru_put {cap : Nat} {l : List (Nat × Nat)} {k v : Nat} {p : Nat × Nat}
    (h : p ∈ lru_put cap l k v) : p = (k, v) ∨ (p ∈ l ∧ p.1 ≠ k) := by
  have h1 : p ∈ (k, v) :: l.filter (fun q => q.1 ≠ k) := List.take_subset _ _ h
  rcases List.mem_cons.mp h1 with h2 | h2
  · exact Or.inl h2
  · exact Or.inr ⟨List.mem_of_mem_filter h2, by simpa using List.of_mem_filter h2⟩

/-- Helper: lookup in a committed-table insert. -/
theorem alookup_ainsert (l : List (Nat × Nat)) (k v key : Nat) :
    alookup (ainsert l k v) key = if k = key then some v else alookup l key := by
  by_cases hk : k = key
  · simp [ainsert, alookup, hk]
  · simp only [ainsert, alookup, if_neg hk]
    induction l with
    | nil => simp
    | cons q t ih =>
      by_cases hq : q.1 = k
      · rw [show (q :: t).filter (fun p => decide (p.1 ≠ k)) = t.filter (fun p => decide (p.1 ≠ k))
          from by simp [List.filter_cons, hq]]
        rw [ih]
        have : q.1 ≠ key := by rw [hq]; exact hk
        cases q with
        | mk q1 q2 => simp only [alookup]; rw [if_neg this]
      · rw [show (q :: t).filter (fun p => decide (p.1 ≠ k)) = q :: t.filter (fun p => decide (p.1 ≠ k))
          from by simp [List.filter_cons, hq]]
        cases q with
        | mk q1 q2 =>
          by_cases hq1 : q1 = key
          · simp only [alookup, if_pos hq1]
          · simp only [alookup, if_neg hq1]; exact ih

/-- Helper: a successful lookup is a membership. -/
theorem alookup_mem {l : List (Nat × Nat)} {k v : Nat} (h : alookup l k = some v) :
    (k, v) ∈ l := by
  induction l with
  | nil => exact absurd h (by simp [alookup])
  | cons q t ih =>
    cases q with
    | mk q1 q2 =>
      by_cases hq : q1 = k
      · simp only [alookup, if_pos hq] at h
        subst hq
        exact (Option.some.inj h) ▸ List.mem_cons_self _ _
      · simp only [alookup, if_neg hq] at h
        exact List.mem_cons_of_mem _ (ih h)

/-- Helper: a committing step preserves the cache-backing invariant. -/
theorem cache_backed_step {s : KvState} {op : KvOp}
    (hs : cache_backed s) (hop : op.write_ok) : cache_backed (kv_step s op) := by
  obtain ⟨hH, hI⟩ := hs
  cases op with
  | saveHeader hash hdr commitOk =>
    have hc : commitOk = true := hop
    subst hc
    simp only [kv_step, if_pos]
    constructor
    · intro p hp
      rcases mem_lru_put hp with h | ⟨hpl, hpk⟩
      · subst h; rw [alookup_ainsert, if_pos rfl]
      · rw [alookup_ainsert, if_neg (fun h => hpk h.symm)]
        exact hH p hpl
    · intro p hp; exact hI p hp
  | updateBlockIndex height hash commitOk =>
    have hc : commitOk = true := hop
    subst hc
    simp only [kv_step, if_pos]
    constructor
    · intro p hp; exact hH p hp
    · intro p hp
      rcases mem_lru_put hp with h | ⟨hpl, hpk⟩
      · subst h; rw [alookup_ainsert, if_pos rfl]
      · rw [alookup_ainsert, if_neg (fun h => hpk h.symm)]
        exact hI p hpl
  | getHeader hash =>
    simp only [kv_step]
    cases hg : lru_get s.headerCache hash with
    | mk found hc =>
      cases found with
      | some v =>
        refine ⟨?_, fun p hp => hI p hp⟩
        intro p hp
        have hv : alookup s.headerCache hash = some v ∧ hc = (hash, v) :: s.headerCache.filter (fun q => q.1 ≠ hash) := by
          unfold lru_get at hg
          cases hl : alookup s.headerCache hash with
          | none => rw [hl] at hg; exact absurd (Prod.mk.inj hg).1 (by simp)
          | some w =>
            rw [hl] at hg
            obtain ⟨h1, h2⟩ := Prod.mk.inj hg
            have hw : w = v := Option.some.inj h1
            subst hw
            exact ⟨rfl, h2.symm⟩
        rw [hv.2] at hp
        rcases List.mem_cons.mp hp with h | h
        · subst h; exact hH _ (alookup_mem hv.1)
        · exact hH p (List.mem_of_mem_filter h)
      | none =>
        cases hd : alookup s.dbHeaders hash with
        | some hdr =>
          refine ⟨?_, fun p hp => hI p hp⟩
          intro p hp
          rcases mem_lru_put hp with h | ⟨hpl, _⟩
          · subst h; exact hd
          · exact hH p hpl
        | none => exact ⟨hH, hI⟩
  | getBlockHash height =>
    simp only [kv_step]
    cases hg : lru_get s.indexCache height with
    | mk found ic =>
      cases found with
      | some v =>
        refine ⟨fun p hp => hH p hp, ?_⟩
        intro p hp
        have hv : alookup s.indexCache height = some v ∧ ic = (height, v) :: s.indexCache.filter (fun q => q.1 ≠ height) := by
          unfold lru_get at hg
          cases hl : alookup s.indexCache height with
          | none => rw [hl] at hg; exact absurd (Prod.mk.inj hg).1 (by simp)
          | some w =>
            rw [hl] at hg
            obtain ⟨h1, h2⟩ := Prod.mk.inj hg
            have hw : w = v := Option.some.inj h1
            subst hw
            exact ⟨rfl, h2.symm⟩
        rw [hv.2] at hp
        rcases List.mem_cons.mp hp with h | h
        · subst h; exact hI _ (alookup_mem hv.1)
        · exact hI p (List.mem_of_mem_filter h)
      | none =>
        cases hd : alookup s.dbIndex height with
        | some hash =>
          refine ⟨fun p hp => hH p hp, ?_⟩
          intro p hp
          rcases mem_lru_put hp with h | ⟨hpl, _⟩
          · subst h; exact hd
          · exact hI p hpl
        | none => exact ⟨hH, hI⟩

/-- Claim C8 (amended): as long as every write transaction commits, every
entry of either cache corresponds to an identical committed row of the
matching table, over every operation sequence from a fresh store. -/
theorem kv_cache_backed_of_commits (ops : List KvOp)
    (h : ∀ op ∈ ops, op.write_ok) :
    cache_backed (kv_run kv_init ops) := by
  suffices hgen : ∀ (s : KvState), cache_backed s →
      (∀ op ∈ ops, op.write_ok) → cache_backed (kv_run s ops) by
    exact hgen kv_init
      ⟨fun p hp => absurd hp (List.not_mem_nil p), fun p hp => absurd hp (List.not_mem_nil p)⟩ h
  clear h
  induction ops with
  | nil => intro s hs _; exact hs
  | cons op rest ih =>
    intro s hs hops
    exact ih (kv_step s op) (cache_backed_step hs (hops op (List.mem_cons_self _ _)))
      (fun o ho => hops o (List.mem_cons_of_mem _ ho))

/-- Witness for claim C8 on a committing save/update/read sequence. -/
theorem kv_cache_backed_of_commits_witness :
    cache_backed (kv_run kv_init
      [.saveHeader 10 3 true, .updateBlockIndex 1 10 true, .getHeader 10, .getBlockHash 2]) :=
  kv_cache_backed_of_commits
    [.saveHeader 10 3 true, .updateBlockIndex 1 10 true, .getHeader 10, .getBlockHash 2]
    (by intro op hop; fin_cases hop <;> trivial)

/-- Counterexample to claim C8 as stated: a single `save_header` whose write
transaction fails still installs the header in the LRU cache, leaving a cache
entry with no committed row behind it. -/
theorem kv_cache_backed_counterexample :
    ¬cache_backed (kv_run kv_init [.saveHeader 10 3 false]) := by
  decide

/-! ## Claim C9: read-after-write for `save_header` / `update_block_index` -/

/-- An operation writes the header row keyed by `hash` (both a committing and
a failing `save_header` touch the cache entry for that key). -/
def KvOp.writes_header (op : KvOp) (hash : Nat) : Prop :=
  ∃ hdr commitOk, op = .saveHeader hash hdr commitOk

/-- An operation writes the block-index row keyed by `height`. -/
def KvOp.writes_index (op : KvOp) (height : Nat) : Prop :=
  ∃ hsh commitOk, op = .updateBlockIndex height hsh commitOk

/-- After a committed `save_header`, the header row is the committed value and
any cache entry for the key agrees with it. -/
def hdr_key_good (s : KvState) (hash hdr : Nat) : Prop :=
  alookup s.dbHeaders hash = some hdr ∧ ∀ v, (hash, v) ∈ s.headerCache → v = hdr

def idx_key_good (s : KvState) (height hsh : Nat) : Prop :=
  alookup s.dbIndex height = some hsh ∧ ∀ v, (height, v) ∈ s.indexCache → v = hsh

/-- Helper: a committed `save_header` establishes key-goodness for its key. -/
theorem hdr_key_good_save (s : KvState) (hash hdr : Nat) :
    hdr_key_good (kv_step s (.saveHeader hash hdr true)) hash hdr := by
  simp only [kv_step, if_pos]
  constructor
  · rw [alookup_ainsert, if_pos rfl]
  · intro v hv
    rcases mem_lru_put hv with h | ⟨_, hk⟩
    · exact (Prod.mk.inj h).2
    · exact absurd rfl hk

theorem idx_key_good_update (s : KvState) (height hsh : Nat) :
    idx_key_good (kv_step s (.updateBlockIndex height hsh true)) height hsh := by
  simp only [kv_step, if_pos]
  constructor
  · rw [alookup_ainsert, if_pos rfl]
  · intro v hv
    rcases mem_lru_put hv with h | ⟨_, hk⟩
    · exact (Prod.mk.inj h).2
    · exact absurd rfl hk

/-- Helper: any operation that does not write the key preserves header
key-goodness. -/
theorem hdr_key_good_step {s : KvState} {hash hdr : Nat} {op : KvOp}
    (hs : hdr_key_good s hash hdr) (hop : ¬op.writes_header hash) :
    hdr_key_good (kv_step s op) hash hdr := by
  obtain ⟨hdb, hc⟩ := hs
  cases op with
  | saveHeader hash' hdr' commitOk =>
    have hne : hash' ≠ hash := fun h => hop ⟨hdr', commitOk, by rw [h]⟩
    have hcache : ∀ v, (hash, v) ∈ lru_put HEADER_CACHE_CAPACITY s.headerCache hash' hdr' → v = hdr := by
      intro v hv
      rcases mem_lru_put hv with h | ⟨hl, _⟩
      · exact absurd (Prod.mk.inj h).1.symm hne
      · exact hc v hl
    cases commitOk with
    | true =>
      simp only [kv_step, if_pos]
      exact ⟨by rw [alookup_ainsert, if_neg hne]; exact hdb, hcache⟩
    | false =>
      simp only [kv_step, Bool.false_eq_true, if_false]
      exact ⟨hdb, hcache⟩
  | updateBlockIndex height' hsh' commitOk =>
    cases commitOk with
    | true => simp only [kv_step, if_pos]; exact ⟨hdb, hc⟩
    | false => simp only [kv_step, Bool.false_eq_true, if_false]; exact ⟨hdb, hc⟩
  | getHeader hash' =>
    simp only [kv_step]
    cases hg : lru_get s.headerCache hash' with
    | mk found hc' =>
      cases found with
      | some v =>
        have hv : alookup s.headerCache hash' = some v ∧
            hc' = (hash', v) :: s.headerCache.filter (fun q => q.1 ≠ hash') := by
          unfold lru_get at hg
          cases hl : alookup s.headerCache hash' with
          | none => rw [hl] at hg; exact absurd (Prod.mk.inj hg).1 (by simp)
          | some w =>
            rw [hl] at hg
            obtain ⟨h1, h2⟩ := Prod.mk.inj hg
            have hw : w = v := Option.some.inj h1
            subst hw
            exact ⟨rfl, h2.symm⟩
        refine ⟨hdb, ?_⟩
        intro u hu
        rw [hv.2] at hu
        rcases List.mem_cons.mp hu with h | h
        · obtain ⟨h1, h2⟩ := Prod.mk.inj h
          subst h2
          exact hc u (h1 ▸ alookup_mem hv.1)
        · exact hc u (List.mem_of_mem_filter h)
      | none =>
        cases hd : alookup s.dbHeaders hash' with
        | some hdr' =>
          refine ⟨hdb, ?_⟩
          intro u hu
          rcases mem_lru_put hu with h | ⟨hl, _⟩
          · obtain ⟨h1, h2⟩ := Prod.mk.inj h
            subst h1; subst h2
            exact (Option.some.inj (hdb.symm.trans hd)).symm
          · exact hc u hl
        | none => exact ⟨hdb, hc⟩
  | getBlockHash height' =>
    simp only [kv_step]
    cases hg : lru_get s.indexCache height' with
    | mk found ic' =>
      cases found with
      | some v => exact ⟨hdb, hc⟩
      | none =>
        cases hd : alookup s.dbIndex height' with
        | some hsh' => exact ⟨hdb, hc⟩
        | none => exact ⟨hdb, hc⟩

/-- Helper: mirror of `hdr_key_good_step` for the block index. -/
theorem idx_key_good_step {s : KvState} {height hsh : Nat} {op : KvOp}
    (hs : idx_key_good s height hsh) (hop : ¬op.writes_index height) :
    idx_key_good (kv_step s op) height hsh := by
  obtain ⟨hdb, hc⟩ := hs
  cases op with
  | updateBlockIndex height' hsh' commitOk =>
    have hne : height' ≠ height := fun h => hop ⟨hsh', commitOk, by rw [h]⟩
    have hcache : ∀ v, (height, v) ∈ lru_put INDEX_CACHE_CAPACITY s.indexCache height' hsh' → v = hsh := by
      intro v hv
      rcases mem_lru_put hv with h | ⟨hl, _⟩
      · exact absurd (Prod.mk.inj h).1.symm hne
      · exact hc v hl
    cases commitOk with
    | true =>
      simp only [kv_step, if_pos]
      exact ⟨by rw [alookup_ainsert, if_neg hne]; exact hdb, hcache⟩
    | false =>
      simp only [kv_step, Bool.false_eq_true, if_false]
      exact ⟨hdb, hcache⟩
  | saveHeader hash' hdr' commitOk =>
    cases commitOk with
    | true => simp only [kv_step, if_pos]; exact ⟨hdb, hc⟩
    | false => simp only [kv_step, Bool.false_eq_true, if_false]; exact ⟨hdb, hc⟩
  | getBlockHash height' =>
    simp only [kv_step]
    cases hg : lru_get s.indexCache height' with
    | mk found ic' =>
      cases found with
      | some v =>
        have hv : alookup s.indexCache height' = some v ∧
            ic' = (height', v) :: s.indexCache.filter (fun q => q.1 ≠ height') := by
          unfold lru_get at hg
          cases hl : alookup s.indexCache height' with
          | none => rw [hl] at hg; exact absurd (Prod.mk.inj hg).1 (by simp)
          | some w =>
            rw [hl] at hg
            obtain ⟨h1, h2⟩ := Prod.mk.inj hg
            have hw : w = v := Option.some.inj h1
            subst hw
            exact ⟨rfl, h2.symm⟩
        refine ⟨hdb, ?_⟩
        intro u hu
        rw [hv.2] at hu
        rcases List.mem_cons.mp hu with h | h
        · obtain ⟨h1, h2⟩ := Prod.mk.inj h
          subst h2
          exact hc u (h1 ▸ alookup_mem hv.1)
        · exact hc u (List.mem_of_mem_filter h)
      | none =>
        cases hd : alookup s.dbIndex height' with
        | some hsh' =>
          refine ⟨hdb, ?_⟩
          intro u hu
          rcases mem_lru_put hu with h | ⟨hl, _⟩
          · obtain ⟨h1, h2⟩ := Prod.mk.inj h
            subst h1; subst h2
            exact (Option.some.inj (hdb.symm.trans hd)).symm
          · exact hc u hl
        | none => exact ⟨hdb, hc⟩
  | getHeader hash' =>
    simp only [kv_step]
    cases hg : lru_get s.headerCache hash' with
    | mk found hc' =>
      cases found with
      | some v => exact ⟨hdb, hc⟩
      | none =>
        cases hd : alookup s.dbHeaders hash' with
        | some hdr' => exact ⟨hdb, hc⟩
        | none => exact ⟨hdb, hc⟩

/-- Helper: key-goodness is preserved by a run with no write to the key. -/
theorem hdr_key_good_run {hash hdr : Nat} :
    ∀ (ops : List KvOp) (s : KvState), hdr_key_good s hash hdr →
      (∀ op ∈ ops, ¬op.writes_header hash) → hdr_key_good (kv_run s ops) hash hdr := by
  intro ops
  induction ops with
  | nil => intro s hs _; exact hs
  | cons op rest ih =>
    intro s hs hops
    exact ih (kv_step s op) (hdr_key_good_step hs (hops op (List.mem_cons_self _ _)))
      (fun o ho => hops o (List.mem_cons_of_mem _ ho))

theorem idx_key_good_run {height hsh : Nat} :
    ∀ (ops : List KvOp) (s : KvState), idx_key_good s height hsh →
      (∀ op ∈ ops, ¬op.writes_index height) → idx_key_good (kv_run s ops) height hsh := by
  intro ops
  induction ops with
  | nil => intro s hs _; exact hs
  | cons op rest ih =>
    intro s hs hops
    exact ih (kv_step s op) (idx_key_good_step hs (hops op (List.mem_cons_self _ _)))
      (fun o ho => hops o (List.mem_cons_of_mem _ ho))

/-- Claim C9: after a `save_header` whose transaction commits, `get_header`
returns the saved header, and after a committed `update_block_index`,
`get_block_hash` returns the saved hash, in any state and after any sequence
of further operations that never writes the same key. -/
theorem kv_read_after_write :
    (∀ (s : KvState) (hash hdr : Nat) (ops : List KvOp),
      (∀ op ∈ ops, ¬op.writes_header hash) →
      get_header_out (kv_run (kv_step s (.saveHeader hash hdr true)) ops) hash = some hdr) ∧
    (∀ (s : KvState) (height hsh : Nat) (ops : List KvOp),
      (∀ op ∈ ops, ¬op.writes_index height) →
      get_block_hash_out (kv_run (kv_step s (.updateBlockIndex height hsh true)) ops) height
        = some hsh) := by
  constructor
  · intro s hash hdr ops hops
    have hg : hdr_key_good (kv_run (kv_step s (.saveHeader hash hdr true)) ops) hash hdr :=
      hdr_key_good_run ops _ (hdr_key_good_save s hash hdr) hops
    unfold get_header_out
    cases hl : alookup (kv_run (kv_step s (.saveHeader hash hdr true)) ops).headerCache hash with
    | some v => rw [hg.2 v (alookup_mem hl)]
    | none => exact hg.1
  · intro s height hsh ops hops
    have hg : idx_key_good (kv_run (kv_step s (.updateBlockIndex height hsh true)) ops) height hsh :=
      idx_key_good_run ops _ (idx_key_good_update s height hsh) hops
    unfold get_block_hash_out
    cases hl : alookup (kv_run (kv_step s (.updateBlockIndex height hsh true)) ops).indexCache height with
    | some v => rw [hg.2 v (alookup_mem hl)]
    | none => exact hg.1

/-- Witness for claim C9: a save of header 3 under hash 10 followed by
unrelated traffic still reads back, for both tables. -/
theorem kv_read_after_write_witness :
    get_header_out (kv_run (kv_step kv_init (.saveHeader 10 3 true))
      [.updateBlockIndex 1 10 true, .getHeader 11, .saveHeader 11 4 false]) 10 = some 3 ∧
    get_block_hash_out (kv_run (kv_step kv_init (.updateBlockIndex 1 10 true))
      [.saveHeader 10 3 true, .getBlockHash 2]) 1 = some 10 :=
  ⟨kv_read_after_write.1 kv_init 10 3
      [.updateBlockIndex 1 10 true, .getHeader 11, .saveHeader 11 4 false]
      (by intro op hop; fin_cases hop <;> · rintro ⟨h, c, hc⟩; cases hc),
   kv_read_after_write.2 kv_init 1 10
      [.saveHeader 10 3 true, .getBlockHash 2]
      (by intro op hop; fin_cases hop <;> · rintro ⟨h, c, hc⟩; cases hc)⟩

end Floresta
